import Mathlib

/-!
# Verification of the `future-timed` instrumentation wrappers

Shallow embedding of the two decorator state machines of the
`future-timed` crate (`src/lib.rs` and `src/warn.rs`):

* `Timed` — the cumulative timing wrapper: accumulates busy and idle
  wall-clock time across polls and invokes a one-shot completion callback
  with the final `Timing` record when the inner future finishes.
* `WarnIf` — the threshold warning wrapper: measures each poll's
  duration and invokes a reusable callback whenever it meets or exceeds
  a fixed threshold.

Time is modelled by `Nat` timestamps read from a monotonic clock; a
duration is the (truncated) difference of two timestamps, matching the
library's assumption that the clock is monotonic (`Instant` subtraction
with a non-monotonic clock is out of scope for the crate).  The clock
reads bracketing one delegation to the inner future, together with the
inner future's reported `Poll` result, are the external inputs of one
poll of a wrapper.  Callback invocation is an observable event: a poll
step returns, besides the propagated `Poll` result and the new wrapper
state, an optional event carrying the callback value that was invoked
and the argument it received.  The callback values themselves are kept
opaque (type parameters), exactly as the `FnOnce(Timing)` / `Fn(Duration)`
parameters of the Rust code.
-/

namespace FutureTimed

/-- `std::task::Poll`: the result of one poll of a future, either
still pending or ready with the output value. -/
inductive Poll (α : Type) where
  | pending : Poll α
  | ready : α → Poll α
deriving DecidableEq, Repr

/-- Whether a poll result is `Ready`. -/
def Poll.isReady {α : Type} : Poll α → Bool
  | .pending => false
  | .ready _ => true

/-- The `Timing` record of `src/lib.rs`: accumulated idle and busy
durations of an instrumented future. -/
structure Timing where
  idle : Nat
  busy : Nat
deriving DecidableEq, Repr

/-- The `Timed` wrapper state of `src/lib.rs`: the optional end
timestamp of the last poll, the running `Timing` record, the one-shot
callback slot `op` (populated until consumed), and the owned inner
future, kept opaque. -/
structure Timed (ι κ : Type) where
  last_poll_end : Option Nat
  timing : Timing
  op : Option κ
  inner : ι
deriving DecidableEq, Repr

/-- `Timed::new` from `src/lib.rs`: zero timing, no previous poll end,
callback slot populated. -/
def Timed.new {ι κ : Type} (inner : ι) (op : κ) : Timed ι κ :=
  { last_poll_end := none
    timing := { idle := 0, busy := 0 }
    op := some op
    inner := inner }

/-- The free constructor `timed` from `src/lib.rs`. -/
def timed {ι κ : Type} (fut : ι) (f : κ) : Timed ι κ :=
  Timed.new fut f

/-- The fluent `TimedFutureExt::timed` method from `src/lib.rs`. -/
def TimedFutureExt.timed {ι κ : Type} (self : ι) (f : κ) : Timed ι κ :=
  Timed.new self f

/-- One poll of the `Timed` wrapper (`<Timed as Future>::poll` in
`src/lib.rs`).  `start` and `pollEnd` are the two clock reads bracketing
the delegation to the inner future, `result` is what the inner poll
returned.  Returns the propagated `Poll` result, the callback event
(the consumed callback together with the `Timing` record it was invoked
with, when it fired), and the updated wrapper state. -/
def Timed.poll {ι κ α : Type} (this : Timed ι κ) (start pollEnd : Nat)
    (result : Poll α) : Poll α × Option (κ × Timing) × Timed ι κ :=
  let timing1 :=
    match this.last_poll_end with
    | some lpe => { this.timing with idle := this.timing.idle + (start - lpe) }
    | none => this.timing
  let timing2 := { timing1 with busy := timing1.busy + (pollEnd - start) }
  let updated : Timed ι κ :=
    { this with last_poll_end := some pollEnd, timing := timing2 }
  match result with
  | .pending => (.pending, none, updated)
  | .ready output =>
    match updated.op with
    | some op => (.ready output, some (op, updated.timing), { updated with op := none })
    | none => (.ready output, none, { updated with op := none })

/-- The external inputs of one poll of a wrapper: the clock read before
the delegation, the clock read after it, and the inner future's result. -/
structure PollInput (α : Type) where
  start : Nat
  pollEnd : Nat
  result : Poll α
deriving DecidableEq, Repr

/-- The measured duration of one poll: `end − start`. -/
def PollInput.dur {α : Type} (p : PollInput α) : Nat :=
  p.pollEnd - p.start

/-- Drive a `Timed` wrapper through a sequence of polls, collecting for
each poll the propagated result and the callback event. -/
def Timed.run {ι κ α : Type} (t : Timed ι κ) :
    List (PollInput α) → List (Poll α × Option (κ × Timing)) × Timed ι κ
  | [] => ([], t)
  | p :: ps =>
    let step := Timed.poll t p.start p.pollEnd p.result
    let rest := Timed.run step.2.2 ps
    ((step.1, step.2.1) :: rest.1, rest.2)

/-- The `WarnIf` wrapper state of `src/warn.rs`: the fixed threshold,
the reusable callback and the owned inner future. -/
structure WarnIf (ι κ : Type) where
  threshold : Nat
  op : κ
  inner : ι
deriving DecidableEq, Repr

/-- `WarnIf::new` from `src/warn.rs`. -/
def WarnIf.new {ι κ : Type} (inner : ι) (threshold : Nat) (op : κ) : WarnIf ι κ :=
  { threshold := threshold, op := op, inner := inner }

/-- The free constructor `warn_if` from `src/warn.rs`. -/
def warn_if {ι κ : Type} (fut : ι) (threshold : Nat) (op : κ) : WarnIf ι κ :=
  WarnIf.new fut threshold op

/-- Modelled from the spec: the fluent attachment equivalent of the
`warn_if` constructor, usable directly on a future value.  The method is
referenced by the crate documentation (`TimedFutureExt::warn_if`) but its
declaration is not among the provided sources; the spec requires it to
"preserve identical semantics to the constructors", i.e. to construct
`WarnIf` from the same arguments. -/
def TimedFutureExt.warn_if {ι κ : Type} (self : ι) (threshold : Nat) (op : κ) :
    WarnIf ι κ :=
  WarnIf.new self threshold op

/-- One poll of the `WarnIf` wrapper (`<WarnIf as Future>::poll` in
`src/warn.rs`).  Returns the propagated result, the callback event (the
callback and the measured duration it was invoked with, when it fired)
and the unchanged wrapper state. -/
def WarnIf.poll {ι κ α : Type} (this : WarnIf ι κ) (start pollEnd : Nat)
    (result : Poll α) : Poll α × Option (κ × Nat) × WarnIf ι κ :=
  let busy := pollEnd - start
  if this.threshold ≤ busy then
    (result, some (this.op, busy), this)
  else
    (result, none, this)

/-- Drive a `WarnIf` wrapper through a sequence of polls, collecting for
each poll the propagated result and the callback event. -/
def WarnIf.run {ι κ α : Type} (w : WarnIf ι κ) :
    List (PollInput α) → List (Poll α × Option (κ × Nat)) × WarnIf ι κ
  | [] => ([], w)
  | p :: ps =>
    let step := WarnIf.poll w p.start p.pollEnd p.result
    let rest := WarnIf.run step.2.2 ps
    ((step.1, step.2.1) :: rest.1, rest.2)

/-- The expected firing pattern of the one-shot completion callback over
a poll trace: it fires exactly on the first poll whose inner result is
ready, provided the callback has not been consumed before (`seen`). -/
def fireSpec {α : Type} (seen : Bool) : List (PollInput α) → List Bool
  | [] => []
  | p :: ps => (!seen && p.result.isReady) :: fireSpec (seen || p.result.isReady) ps

end FutureTimed

namespace FutureTimed

/-- Closed form of `WarnIf.run`: each poll propagates its inner result
and fires the callback exactly when its duration meets the threshold,
and the wrapper state never changes. -/
theorem WarnIf.run_eq {ι κ α : Type} (w : WarnIf ι κ) (inputs : List (PollInput α)) :
    WarnIf.run w inputs =
      (inputs.map fun p =>
        (p.result,
          if w.threshold ≤ p.pollEnd - p.start then some (w.op, p.pollEnd - p.start)
          else none), w) := by
  induction inputs with
  | nil => rfl
  | cons p ps ih =>
    simp only [WarnIf.run, WarnIf.poll, List.map_cons, ih]
    split <;> simp_all

/-- The result component of one `Timed` poll equals the inner result. -/
theorem Timed.poll_result {ι κ α : Type} (t : Timed ι κ) (s e : Nat) (r : Poll α) :
    (Timed.poll t s e r).1 = r := by
  cases r <;> cases ho : t.op <;> cases hl : t.last_poll_end <;>
    simp [Timed.poll, ho, hl]

/-- After one `Timed` poll the last-poll-end timestamp is the poll's end. -/
theorem Timed.poll_state_last {ι κ α : Type} (t : Timed ι κ) (s e : Nat) (r : Poll α) :
    (Timed.poll t s e r).2.2.last_poll_end = some e := by
  cases r <;> cases ho : t.op <;> cases hl : t.last_poll_end <;>
    simp [Timed.poll, ho, hl]

/-- One `Timed` poll adds the poll's own duration to the accumulated busy time. -/
theorem Timed.poll_state_busy {ι κ α : Type} (t : Timed ι κ) (s e : Nat) (r : Poll α) :
    (Timed.poll t s e r).2.2.timing.busy = t.timing.busy + (e - s) := by
  cases r <;> cases ho : t.op <;> cases hl : t.last_poll_end <;>
    simp [Timed.poll, ho, hl]

/-- When a previous poll end is recorded, one `Timed` poll adds the gap
`start − previous_end` to the accumulated idle time. -/
theorem Timed.poll_state_idle_of_some {ι κ α : Type} (t : Timed ι κ) (s e : Nat)
    (r : Poll α) (lpe : Nat) (h : t.last_poll_end = some lpe) :
    (Timed.poll t s e r).2.2.timing.idle = t.timing.idle + (s - lpe) := by
  cases r <;> cases ho : t.op <;> simp [Timed.poll, ho, h]

/-- On the first poll (no previous poll end) the idle time is unchanged. -/
theorem Timed.poll_state_idle_of_none {ι κ α : Type} (t : Timed ι κ) (s e : Nat)
    (r : Poll α) (h : t.last_poll_end = none) :
    (Timed.poll t s e r).2.2.timing.idle = t.timing.idle := by
  cases r <;> cases ho : t.op <;> simp [Timed.poll, ho, h]

/-- The callback slot after one `Timed` poll: consumed when the inner
result was ready, untouched otherwise. -/
theorem Timed.poll_state_op {ι κ α : Type} (t : Timed ι κ) (s e : Nat) (r : Poll α) :
    (Timed.poll t s e r).2.2.op = if r.isReady then none else t.op := by
  cases r <;> cases ho : t.op <;> cases hl : t.last_poll_end <;>
    simp [Timed.poll, Poll.isReady, ho, hl]

/-- The callback event of one `Timed` poll: present exactly when the
inner result was ready and the slot was still populated, and then it
carries the slot's callback and the updated timing record. -/
theorem Timed.poll_event {ι κ α : Type} (t : Timed ι κ) (s e : Nat) (r : Poll α) :
    (Timed.poll t s e r).2.1 =
      if r.isReady then t.op.map (fun op => (op, (Timed.poll t s e r).2.2.timing))
      else none := by
  cases r <;> cases ho : t.op <;> cases hl : t.last_poll_end <;>
    simp [Timed.poll, Poll.isReady, ho, hl]

/-- Running a `Timed` wrapper adds the sum of the polls' durations to
the accumulated busy time. -/
theorem Timed.run_busy {ι κ α : Type} (t : Timed ι κ) (inputs : List (PollInput α)) :
    (Timed.run t inputs).2.timing.busy
      = t.timing.busy + (inputs.map PollInput.dur).sum := by
  induction inputs generalizing t with
  | nil => simp [Timed.run]
  | cons p ps ih =>
    simp only [Timed.run, List.map_cons, List.sum_cons]
    rw [ih, Timed.poll_state_busy]
    simp only [PollInput.dur]
    omega

/-- The firing pattern of the completion callback over a run is
described by `fireSpec`, seeded by whether the slot is already empty. -/
theorem Timed.run_fire {ι κ α : Type} (t : Timed ι κ) (inputs : List (PollInput α)) :
    (Timed.run t inputs).1.map (fun o => o.2.isSome) = fireSpec t.op.isNone inputs := by
  induction inputs generalizing t with
  | nil => rfl
  | cons p ps ih =>
    simp only [Timed.run, List.map_cons, fireSpec]
    rw [ih]
    simp only [List.cons.injEq]
    refine ⟨?_, ?_⟩
    · rw [Timed.poll_event]
      cases hr : p.result.isReady <;> cases ho : t.op <;> simp [ho]
    · rw [Timed.poll_state_op]
      cases hr : p.result.isReady <;> cases ho : t.op <;> simp [ho]

/-- Once the callback slot is empty it stays empty and no further poll
produces a callback event. -/
theorem Timed.run_no_event_of_consumed {ι κ α : Type} (t : Timed ι κ)
    (h : t.op = none) (inputs : List (PollInput α)) :
    (Timed.run t inputs).1.map (fun o => o.2) = inputs.map (fun _ => none) := by
  induction inputs generalizing t with
  | nil => rfl
  | cons p ps ih =>
    simp only [Timed.run, List.map_cons, List.cons.injEq]
    refine ⟨?_, ?_⟩
    · rw [Timed.poll_event]
      cases hr : p.result.isReady <;> simp [h]
    · apply ih
      rw [Timed.poll_state_op, h]
      cases p.result.isReady <;> simp

/-- `fireSpec` with the callback already consumed never fires. -/
theorem fireSpec_count_of_seen {α : Type} (l : List (PollInput α)) :
    (fireSpec true l).count true = 0 := by
  induction l with
  | nil => rfl
  | cons p ps ih => simp [fireSpec, ih]

/-- `fireSpec` fires at most once over any trace. -/
theorem fireSpec_count_le_one {α : Type} (seen : Bool) (l : List (PollInput α)) :
    (fireSpec seen l).count true ≤ 1 := by
  induction l generalizing seen with
  | nil => simp [fireSpec]
  | cons p ps ih =>
    cases seen with
    | true =>
      have h := fireSpec_count_of_seen (p :: ps)
      omega
    | false =>
      cases hr : p.result.isReady with
      | true => simp [fireSpec, hr, List.count_cons, fireSpec_count_of_seen]
      | false =>
        have h := ih false
        simp [fireSpec, hr, List.count_cons]
        omega

/-- C2: the `Timed` wrapper propagates the inner poll's result
unchanged: pending when the inner poll was pending, ready with the
identical value when the inner poll was ready. -/
theorem timed_poll_transparent {ι κ α : Type} (t : Timed ι κ)
    (start pollEnd : Nat) (result : Poll α) :
    (Timed.poll t start pollEnd result).1 = result := by
  cases result with
  | pending => rfl
  | ready a =>
    simp only [Timed.poll]
    cases t.op <;> rfl

/-- C6: the `WarnIf` wrapper propagates the inner poll's result
unchanged, whether or not the warning callback fired on that poll. -/
theorem warn_if_poll_transparent {ι κ α : Type} (w : WarnIf ι κ)
    (start pollEnd : Nat) (result : Poll α) :
    (WarnIf.poll w start pollEnd result).1 = result := by
  simp only [WarnIf.poll]
  split <;> rfl

/-- C1: over any poll trace of a freshly constructed `Timed` wrapper,
the completion callback fires exactly on the poll where the inner future
first reports ready (the transition to finished), and in total it fires
at most once over the wrapper's lifetime. -/
theorem timed_callback_iff_transition {ι κ α : Type} (inner : ι) (f : κ)
    (inputs : List (PollInput α)) :
    (Timed.run (Timed.new inner f) inputs).1.map (fun o => o.2.isSome)
        = fireSpec false inputs
    ∧ ((Timed.run (Timed.new inner f) inputs).1.map (fun o => o.2.isSome)).count true
        ≤ 1 := by
  have h := Timed.run_fire (Timed.new inner f) inputs
  have hop : (Timed.new inner f).op.isNone = false := rfl
  rw [hop] at h
  exact ⟨h, h ▸ fireSpec_count_le_one false inputs⟩

/-- C3: the `WarnIf` callback fires on a poll precisely when that poll's
measured duration meets the threshold (inclusive comparison); over a
trace it fires on every qualifying poll, each poll being judged
independently against the fixed threshold, and the wrapper carries no
state between polls. -/
theorem warn_if_fires_iff_threshold {ι κ α : Type} (w : WarnIf ι κ)
    (start pollEnd : Nat) (result : Poll α) (inputs : List (PollInput α)) :
    (((WarnIf.poll w start pollEnd result).2.1).isSome = true
        ↔ w.threshold ≤ pollEnd - start)
    ∧ (WarnIf.run w inputs).1.map (fun o => o.2.isSome)
        = inputs.map (fun p => decide (w.threshold ≤ p.dur))
    ∧ (WarnIf.run w inputs).2 = w := by
  refine ⟨?_, ?_, ?_⟩
  · simp only [WarnIf.poll]
    split <;> simp_all
  · rw [WarnIf.run_eq]
    simp only [Prod.fst, List.map_map]
    apply List.map_congr_left
    intro p _
    simp only [Function.comp, PollInput.dur]
    split <;> simp_all
  · rw [WarnIf.run_eq]

/-- C4: when a previous poll end is recorded, a poll adds
`start − previous_end` to the accumulated idle time; on the first poll
(no previous end) nothing is added to idle; and a future finishing on
its very first poll delivers a timing record with idle equal to zero
(and busy equal to that single poll's duration). -/
theorem timed_idle_accumulation {ι κ α : Type} (t : Timed ι κ) (s e : Nat)
    (r : Poll α) (inner : ι) (f : κ) (a : α) :
    (∀ lpe, t.last_poll_end = some lpe →
        (Timed.poll t s e r).2.2.timing.idle = t.timing.idle + (s - lpe))
    ∧ (t.last_poll_end = none →
        (Timed.poll t s e r).2.2.timing.idle = t.timing.idle)
    ∧ (Timed.poll (Timed.new inner f) s e (Poll.ready a)).2.1
        = some (f, { idle := 0, busy := e - s }) := by
  refine ⟨fun lpe hl => Timed.poll_state_idle_of_some t s e r lpe hl,
    fun hl => Timed.poll_state_idle_of_none t s e r hl, ?_⟩
  simp [Timed.new, Timed.poll]

/-- Witness for C4 at a concrete wrapper state and concrete timestamps. -/
theorem timed_idle_accumulation_witness :
    (Timed.poll (⟨some 2, ⟨1, 1⟩, some 9, 0⟩ : Timed Nat Nat) 5 8
        (Poll.pending (α := Nat))).2.2.timing.idle = 1 + (5 - 2)
    ∧ (Timed.poll (Timed.new (0 : Nat) (9 : Nat)) 5 8 (Poll.ready (3 : Nat))).2.1
        = some (9, { idle := 0, busy := 8 - 5 }) := by
  have h := timed_idle_accumulation (⟨some 2, ⟨1, 1⟩, some 9, 0⟩ : Timed Nat Nat)
    5 8 (Poll.pending (α := Nat)) (0 : Nat) (9 : Nat) (3 : Nat)
  exact ⟨h.1 2 rfl, h.2.2⟩

/-- C5: over any poll trace of a freshly constructed `Timed` wrapper,
the accumulated busy time equals the sum of the individual polls'
durations. -/
theorem timed_busy_is_sum_of_durations {ι κ α : Type} (inner : ι) (f : κ)
    (inputs : List (PollInput α)) :
    (Timed.run (Timed.new inner f) inputs).2.timing.busy
      = (inputs.map PollInput.dur).sum := by
  rw [Timed.run_busy]
  simp [Timed.new]

/-- C7: once the completion callback slot has been consumed (the inner
future already reported finished), no further poll — in particular none
that yields a ready result again — ever produces a callback invocation. -/
theorem timed_no_reinvoke_after_consumed {ι κ α : Type} (t : Timed ι κ)
    (h : t.op = none) (inputs : List (PollInput α)) :
    (Timed.run t inputs).1.map (fun o => o.2) = inputs.map (fun _ => none) :=
  Timed.run_no_event_of_consumed t h inputs

/-- Witness for C7: a consumed wrapper polled once more to a ready
result produces no callback event. -/
theorem timed_no_reinvoke_after_consumed_witness :
    ((Timed.run (⟨some 2, ⟨1, 1⟩, none, 0⟩ : Timed Nat Nat)
        [⟨3, 5, Poll.ready (7 : Nat)⟩]).1.map (fun o => o.2)) = [none] := by
  have h := timed_no_reinvoke_after_consumed
    (⟨some 2, ⟨1, 1⟩, none, 0⟩ : Timed Nat Nat) rfl [⟨3, 5, Poll.ready (7 : Nat)⟩]
  simpa using h

/-- C8: the fluent attachment methods agree with the free constructors:
attaching the cumulative timing wrapper fluently equals `timed`, and
attaching the threshold warning wrapper fluently equals `warn_if`, at
identical arguments. -/
theorem fluent_methods_agree {ι κ κ' : Type} (fut : ι) (f : κ)
    (threshold : Nat) (op : κ') :
    TimedFutureExt.timed fut f = timed fut f
    ∧ TimedFutureExt.warn_if fut threshold op = warn_if fut threshold op :=
  ⟨rfl, rfl⟩

/-- C9: on the poll where the inner future reports ready and the slot is
still populated, the callback receives exactly the updated timing record
of that poll — including that poll's busy duration and, when a previous
poll end exists, the idle gap preceding it — and the last-poll-end
timestamp is updated to that poll's end. -/
theorem timed_final_poll_accumulates {ι κ α : Type} (t : Timed ι κ) (s e : Nat)
    (a : α) (f : κ) (h : t.op = some f) :
    (Timed.poll t s e (Poll.ready a)).2.1
        = some (f, (Timed.poll t s e (Poll.ready a)).2.2.timing)
    ∧ (Timed.poll t s e (Poll.ready a)).2.2.timing.busy = t.timing.busy + (e - s)
    ∧ (∀ lpe, t.last_poll_end = some lpe →
        (Timed.poll t s e (Poll.ready a)).2.2.timing.idle
          = t.timing.idle + (s - lpe))
    ∧ (Timed.poll t s e (Poll.ready a)).2.2.last_poll_end = some e := by
  refine ⟨?_, Timed.poll_state_busy t s e (Poll.ready a),
    fun lpe hl => Timed.poll_state_idle_of_some t s e (Poll.ready a) lpe hl,
    Timed.poll_state_last t s e (Poll.ready a)⟩
  rw [Timed.poll_event]
  simp [Poll.isReady, h]

/-- Witness for C9 at a concrete wrapper state and concrete timestamps. -/
theorem timed_final_poll_accumulates_witness :
    (Timed.poll (⟨some 2, ⟨1, 1⟩, some 9, 0⟩ : Timed Nat Nat) 5 8
        (Poll.ready (3 : Nat))).2.1
      = some (9, (Timed.poll (⟨some 2, ⟨1, 1⟩, some 9, 0⟩ : Timed Nat Nat) 5 8
          (Poll.ready (3 : Nat))).2.2.timing)
    ∧ (Timed.poll (⟨some 2, ⟨1, 1⟩, some 9, 0⟩ : Timed Nat Nat) 5 8
        (Poll.ready (3 : Nat))).2.2.timing.idle = 1 + (5 - 2)
    ∧ (Timed.poll (⟨some 2, ⟨1, 1⟩, some 9, 0⟩ : Timed Nat Nat) 5 8
        (Poll.ready (3 : Nat))).2.2.last_poll_end = some 8 := by
  have h := timed_final_poll_accumulates
    (⟨some 2, ⟨1, 1⟩, some 9, 0⟩ : Timed Nat Nat) 5 8 (3 : Nat) 9 rfl
  exact ⟨h.1, h.2.2.1 2 rfl, h.2.2.2⟩

/-- C10: whenever the `WarnIf` callback is invoked, the duration it
receives is exactly the measured duration `end − start` of that same
poll and meets the threshold; and with a threshold of zero the callback
fires on every poll, with that poll's measured duration. -/
theorem warn_if_callback_arg {ι κ α : Type} (w : WarnIf ι κ) (s e : Nat)
    (r : Poll α) :
    (∀ c d, (WarnIf.poll w s e r).2.1 = some (c, d) →
        c = w.op ∧ d = e - s ∧ w.threshold ≤ d)
    ∧ (w.threshold = 0 → (WarnIf.poll w s e r).2.1 = some (w.op, e - s)) := by
  constructor
  · intro c d h
    by_cases hc : w.threshold ≤ e - s
    · simp only [WarnIf.poll, if_pos hc, Option.some.injEq, Prod.mk.injEq] at h
      exact ⟨h.1.symm, h.2.symm, h.2 ▸ hc⟩
    · simp [WarnIf.poll, if_neg hc] at h
  · intro h0
    simp [WarnIf.poll, h0]

/-- Witness for C10 at a concrete threshold-zero wrapper and a concrete
poll duration. -/
theorem warn_if_callback_arg_witness :
    ((5 : Nat) = (⟨0, 5, 0⟩ : WarnIf Nat Nat).op
      ∧ (3 : Nat) = 4 - 1 ∧ (⟨0, 5, 0⟩ : WarnIf Nat Nat).threshold ≤ 3)
    ∧ (WarnIf.poll (⟨0, 5, 0⟩ : WarnIf Nat Nat) 1 4 (Poll.pending (α := Nat))).2.1
        = some ((⟨0, 5, 0⟩ : WarnIf Nat Nat).op, 4 - 1) := by
  have h := warn_if_callback_arg (⟨0, 5, 0⟩ : WarnIf Nat Nat) 1 4
    (Poll.pending (α := Nat))
  exact ⟨h.1 5 3 (by simp [WarnIf.poll]), h.2 rfl⟩

end FutureTimed
